import Mathlib

/-! Altaf voice assistant (`script.js`): intent matching, provider fallback, session log.

A shallow embedding of the command pipeline of `script.js`:

* strings are lists of characters (`Str`);
* the ambient browser state (`sessions`, `currentSessionId`, the `chatOutput` element,
  `localStorage`, the speech queue, opened windows, issued HTTP requests, the console)
  is an explicit record `World` threaded through every function;
* the two HTTP providers are an environment `Env` giving, for each query, either a parsed
  reply or `none` when `fetch` / `res.json()` rejects; an asynchronous function is modelled
  by its run to completion.
* the Unicode case conversion of the host beyond the ASCII range is a parameter
  (`caseTable`) of `toLowerCase`, `normalize` and `processTextCommand`;
* the Number passed as line limit is a `Count`: an integer that is a double, or `Infinity`.
-/

namespace Altaf

/-- JavaScript strings, as sequences of characters. -/
abbrev Str := List Char

/-! ## String primitives of the host language -/

/-- ECMAScript *LineTerminator*: LF, CR, LS, PS. The regular-expression atom `.` matches
every character except these. -/
def isLineTerminator (c : Char) : Bool :=
  c.toNat == 0x0A || c.toNat == 0x0D || c.toNat == 0x2028 || c.toNat == 0x2029

/-- ECMAScript *WhiteSpace* or *LineTerminator*: what `String.prototype.trim` strips and what
the regular-expression class `\s` matches. -/
def isWhiteSpace (c : Char) : Bool :=
  isLineTerminator c || c.toNat == 0x09 || c.toNat == 0x0B || c.toNat == 0x0C ||
  c.toNat == 0x20 || c.toNat == 0xA0 || c.toNat == 0x1680 ||
  (0x2000 ≤ c.toNat && c.toNat ≤ 0x200A) ||
  c.toNat == 0x202F || c.toNat == 0x205F || c.toNat == 0x3000 || c.toNat == 0xFEFF

/-- The method `s.trim()`. -/
def trim (s : Str) : Str :=
  (s.dropWhile isWhiteSpace).rdropWhile isWhiteSpace

/-- The method `s.toLowerCase()`. On text of the ASCII range it turns `A`..`Z` into `a`..`z`
and leaves every other character. For text with a character beyond that range the result is
read from `caseTable`, the Unicode case conversion of the host, which is a parameter of the
model. -/
def toLowerCase (caseTable : Str → Str) (s : Str) : Str :=
  if s.all (fun c => c.toNat < 128) then s.map Char.toLower else caseTable s

/-- The method `s.startsWith(p)`. -/
def startsWith (s p : Str) : Bool :=
  p.isPrefixOf s

/-- The method `s.includes(p)`. -/
def includes : Str → Str → Bool
  | [], p => p.isEmpty
  | c :: cs, p => p.isPrefixOf (c :: cs) || includes cs p

/-- The call `s.replace(pat, rep)` with a string pattern: the first occurrence only. -/
def replaceFirst (pat rep : Str) : Str → Str
  | [] => if pat.isEmpty then rep else []
  | c :: cs =>
    if pat.isPrefixOf (c :: cs) then rep ++ (c :: cs).drop pat.length
    else c :: replaceFirst pat rep cs

/-- The call `s.replace(/ /g, "")`: every U+0020 is removed. -/
def removeSpaces (s : Str) : Str :=
  s.filter (fun c => c != ' ')

/-- Puts `c` in front of the first unit of a split. -/
def consHead (c : Char) : List Str → List Str
  | [] => [[c]]
  | u :: us => (c :: u) :: us

/-- The call `s.split(". ")`: the units between successive occurrences of the two-character
delimiter, scanned left to right. -/
def splitDotSpace : Str → List Str
  | [] => [[]]
  | c :: rest =>
    match rest with
    | [] => [[c]]
    | d :: rest2 =>
      if c = '.' ∧ d = ' ' then [] :: splitDotSpace rest2
      else consHead c (splitDotSpace (d :: rest2))

/-- The call `units.join(". ")`. -/
def joinDotSpace (units : List Str) : Str :=
  (". ".toList).intercalate units

/-- The call `isNaN(s)` on a capture of `(\d+)`, the only argument the program passes: a
non-empty run of decimal digits converts to a number. Other numeric spellings (sign,
fraction, exponent, radix prefix) never reach this call and are not recognised here. -/
def isNaN (s : Str) : Bool :=
  !(!s.isEmpty && s.all Char.isDigit)

/-- The Number values that reach `slice(0, lines)`: a non-negative integer that is a double,
or `Infinity`. -/
inductive Count
  | finite (n : Nat)
  | infinity
deriving DecidableEq, Repr

instance : Coe Nat Count := ⟨Count.finite⟩

instance (n : Nat) : OfNat Count n := ⟨Count.finite n⟩

/-- The number of binary digits of `n`, counted in at most `fuel` halvings. -/
def bitLengthFuel : Nat → Nat → Nat
  | 0, _ => 0
  | fuel + 1, n => if n = 0 then 0 else bitLengthFuel fuel (n / 2) + 1

/-- The number of binary digits of `n`. -/
def bitLength (n : Nat) : Nat :=
  bitLengthFuel n n

/-- The Number value of a non-negative integer: the integer itself below `2 ^ 53`, otherwise
the nearest value with 53 significant binary digits, ties going to the even one, and
`Infinity` when that value reaches `2 ^ 1024`. -/
def toNumber (n : Nat) : Count :=
  if n < 2 ^ 53 then Count.finite n
  else
    let shift := bitLength n - 53
    let q := n / 2 ^ shift
    let r := n % 2 ^ shift
    let q2 := if 2 ^ (shift - 1) < r ∨ (r = 2 ^ (shift - 1) ∧ q % 2 = 1) then q + 1 else q
    if bitLength (q2 * 2 ^ shift) ≤ 1024 then Count.finite (q2 * 2 ^ shift) else Count.infinity

/-- The decimal value of a run of digits. -/
def decimalValue (s : Str) : Nat :=
  s.foldl (fun n c => 10 * n + (c.toNat - '0'.toNat)) 0

/-- The call `parseInt(s)` on a capture of `(\d+)`: the Number value of the decimal value of
the leading digits. -/
def parseInt (s : Str) : Count :=
  toNumber (decimalValue (s.takeWhile Char.isDigit))

/-- The call `units.slice(0, lines)`. -/
def sliceFromStart (units : List Str) : Count → List Str
  | Count.finite n => units.take n
  | Count.infinity => units

/-! ## Data model -/

/-- The `sender` of a message. -/
inductive Sender
  | user
  | assistant
deriving DecidableEq, Repr

/-- One entry `{ sender, content, time }` of a session. -/
structure Message where
  sender : Sender
  content : Str
  time : Nat
deriving DecidableEq, Repr

/-- The children appended to the `chatOutput` element. -/
inductive Node
  /-- The element `div.message.<sender>` with its `textContent`. -/
  | message (sender : Sender) (text : Str)
  /-- The element `a` with `href` and `textContent` (target `_blank`). -/
  | link (href text : Str)
  /-- The element `div.wiki-result`: optional `img.wiki-image` (`src`, `alt`), the paragraph
  (`innerHTML`), and the source link `href` labelled "📘 Wikipedia Source". -/
  | wikiResult (img : Option (Str × Str)) (desc : Str) (href : Str)
deriving DecidableEq, Repr

/-- The two knowledge providers: A is `api.duckduckgo.com`, B is the Wikipedia REST summary
endpoint. -/
inductive Provider
  | A
  | B
deriving DecidableEq, Repr

/-- The fields of a Provider A reply that the program reads; an absent field is the empty
string (both are falsy). -/
structure DdgData where
  Abstract : Str
  Answer : Str
  Definition : Str
  AbstractURL : Str
deriving DecidableEq, Repr

/-- The fields of a Provider B reply that the program reads: `extract` and
`thumbnail?.source` (absent is the empty string), and `content_urls.desktop.page`, which
every summary carrying an extract carries. -/
structure WikiData where
  extract : Str
  thumbnail : Str
  page : Str
deriving DecidableEq, Repr

/-- The providers as seen by the program: for a query, the parsed reply, or `none` when
`fetch` or `res.json()` rejects (network or parse failure). -/
structure Env where
  ddg : Str → Option DdgData
  wiki : Str → Option WikiData

/-- The session store: session id to message sequence, in insertion order. -/
abbrev Sessions := List (Str × List Message)

/-- The ambient state of the page. `requests` records each `fetch` by provider and query
(the URL is a fixed template around `encodeURIComponent(query)`); `now` is the value read
by `new Date()`. Scrolling of the output element is not represented. -/
structure World where
  currentSessionId : Str
  sessions : Sessions
  persisted : Sessions
  chatOutput : List Node
  spoken : List Str
  opened : List Str
  requests : List (Provider × Str)
  console : List Str
  now : Nat
deriving DecidableEq, Repr

/-- The value of `sessions[id]`. -/
def lookup (id : Str) : Sessions → Option (List Message)
  | [] => none
  | (k, log) :: rest => if k = id then some log else lookup id rest

/-- The statement `sessions[id].push(m)`, for `id` a key of the store. For an id that is
not a key the source throws; here the store is then left as it is, and every statement about
a log assumes the key. -/
def push (id : Str) (m : Message) : Sessions → Sessions
  | [] => []
  | (k, log) :: rest =>
    if k = id then (k, log ++ [m]) :: rest else (k, log) :: push id m rest

/-! ## Effects -/

/-- Function `saveSessions`: the store is serialised into `localStorage`. -/
def saveSessions (w : World) : World :=
  { w with persisted := w.sessions }

/-- Function `speak`. -/
def speak (text : Str) (w : World) : World :=
  { w with spoken := w.spoken ++ [text] }

/-- The call `chatOutput.appendChild(node)`. -/
def appendChild (node : Node) (w : World) : World :=
  { w with chatOutput := w.chatOutput ++ [node] }

/-- The call `window.open(url, "_blank")`. -/
def windowOpen (url : Str) (w : World) : World :=
  { w with opened := w.opened ++ [url] }

/-- The call `fetch(...)` to a provider. -/
def request (p : Provider) (query : Str) (w : World) : World :=
  { w with requests := w.requests ++ [(p, query)] }

/-- The call `console.error(label, err)`. -/
def consoleError (label : Str) (w : World) : World :=
  { w with console := w.console ++ [label] }

/-- The statement `sessions[currentSessionId].push({ sender, content, time: new Date() })`. -/
def pushCurrent (sender : Sender) (content : Str) (w : World) : World :=
  { w with sessions := push w.currentSessionId ⟨sender, content, w.now⟩ w.sessions }

/-- Function `addMessage`: renders the message, appends it to the current session, saves. -/
def addMessage (content : Str) (sender : Sender) (w : World) : World :=
  saveSessions (pushCurrent sender content (appendChild (Node.message sender content) w))

/-- Function `singularize`. -/
def singularize (word : Str) : Str :=
  if word.getLast? = some 's' then word.dropLast else word

/-! ## Knowledge providers -/

/-- The expression `data.Abstract || data.Answer || data.Definition || ""`. -/
def firstAnswer (data : DdgData) : Str :=
  if !data.Abstract.isEmpty then data.Abstract
  else if !data.Answer.isEmpty then data.Answer
  else data.Definition

/-- The element `div.wiki-result` built by both Wikipedia paths. -/
def wikiContainer (data : WikiData) (alt text : Str) : Node :=
  Node.wikiResult (if data.thumbnail.isEmpty then none else some (data.thumbnail, alt))
    ("📖 ".toList ++ text) data.page

/-- Function `fetchWikipediaSummary`. -/
def fetchWikipediaSummary (env : Env) (query : Str) (w : World) : World :=
  let w1 := request Provider.B query w
  match env.wiki query with
  | some data =>
    if !data.extract.isEmpty then
      saveSessions (pushCurrent Sender.assistant data.extract
        (speak data.extract (appendChild (wikiContainer data query data.extract) w1)))
    else
      speak "Sorry, I couldn’t find anything useful.".toList
        (addMessage "I couldn't find an answer. Try rephrasing.".toList Sender.assistant w1)
  | none =>
    speak "Network error while fetching data.".toList
      (addMessage "Network error while fetching data.".toList Sender.assistant
        (consoleError "Wikipedia error:".toList w1))

/-- Function `fetchDuckDuckGoAnswer`. -/
def fetchDuckDuckGoAnswer (env : Env) (query : Str) (w : World) : World :=
  let w1 := request Provider.A query w
  match env.ddg query with
  | some data =>
    let answer := firstAnswer data
    if !answer.isEmpty then
      let w2 := speak answer (addMessage ("📖 ".toList ++ answer) Sender.assistant w1)
      if !data.AbstractURL.isEmpty then
        appendChild (Node.link data.AbstractURL "📘 Source".toList) w2
      else w2
    else fetchWikipediaSummary env query w1
  | none =>
    fetchWikipediaSummary env query (consoleError "DuckDuckGo error:".toList w1)

/-- The expression `data.extract.split(". ").slice(0, lines).join(". ") + "."`. -/
def extractLines (extract : Str) (lines : Count) : Str :=
  joinDotSpace (sliceFromStart (splitDotSpace extract) lines) ++ ".".toList

/-- Function `fetchLimitedLines`. -/
def fetchLimitedLines (env : Env) (topic : Str) (lines : Count) (w : World) : World :=
  let w1 := request Provider.B topic w
  match env.wiki topic with
  | some data =>
    if !data.extract.isEmpty then
      let text := extractLines data.extract lines
      saveSessions (pushCurrent Sender.assistant text
        (speak text (appendChild (wikiContainer data topic text) w1)))
    else
      speak "Sorry, I couldn’t find anything useful.".toList
        (addMessage "I couldn't find an answer. Try rephrasing.".toList Sender.assistant w1)
  | none =>
    speak "Error while fetching data.".toList
      (addMessage "Error while fetching info.".toList Sender.assistant
        (consoleError "Fetch error:".toList w1))

/-! ## Intent matching -/

/-- Group 1 of `(.+)` at the head of `rest` when nothing follows it in the pattern: the
longest run of characters other than line terminators, which must be non-empty. -/
def dotPlus (rest : Str) : Option Str :=
  let cap := rest.takeWhile (fun c => !isLineTerminator c)
  if cap.isEmpty then none else some cap

/-- The call `cmd.match(/^<pre>(.+)/)`: the match array `[match[0], match[1]]`. -/
def matchTopic (pre : Str) (cmd : Str) : Option (List Str) :=
  if pre.isPrefixOf cmd then
    (dotPlus (cmd.drop pre.length)).map (fun cap => [pre ++ cap, cap])
  else none

/-- The call `cmd.match(/^<pre>(\d+)<mid>(.+)/)` for a `mid` that starts with a character
other than a digit: the match array `[match[0], match[1], match[2]]`. Only the longest run
of digits can be followed by `mid`, so backtracking into `\d+` never succeeds. -/
def matchCounted (pre mid : Str) (cmd : Str) : Option (List Str) :=
  if pre.isPrefixOf cmd then
    let rest := cmd.drop pre.length
    let digits := rest.takeWhile Char.isDigit
    let rest2 := rest.dropWhile Char.isDigit
    if digits.isEmpty then none
    else if mid.isPrefixOf rest2 then
      (dotPlus (rest2.drop mid.length)).map (fun cap => [pre ++ digits ++ mid ++ cap, digits, cap])
    else none
  else none

/-- The prefixes of the twelve one-group patterns, in source order. -/
def questionPrefixes : List Str :=
  ["who is ", "what is ", "what is that ", "explain the ", "why are ", "can you tell ",
   "explain these ", "tell me the ", "explain details ", "define ",
   "what do you know about ", "give me info about "].map String.toList

/-- The array `patterns`. -/
def patterns : List (Str → Option (List Str)) :=
  questionPrefixes.map matchTopic ++
  [matchCounted "give me ".toList " number of lines ".toList,
   matchCounted "write ".toList " number of ".toList]

/-- The `for` loop over `patterns`: the match array of the first pattern that matches. -/
def firstMatch (cmd : Str) : Option (List Str) :=
  patterns.findSome? (fun pattern => pattern cmd)

/-- The alternatives of the optional group of the fallback pattern, in source order. -/
def fallbackVerbs : List Str :=
  ["explain", "tell me", "give me", "write", "details", "definition", "meaning of"].map
    String.toList

/-- Group 1 of `\s*(.+)` at the head of the text: `\s*` is greedy and gives characters
back, longest first, until `(.+)` can start. -/
def spacesThenTopic : Str → Option Str
  | [] => none
  | c :: cs =>
    if isWhiteSpace c then
      match spacesThenTopic cs with
      | some cap => some cap
      | none => dotPlus (c :: cs)
    else dotPlus (c :: cs)

/-- Group 1 of the fallback pattern matched at the head of the text: the alternatives of
the optional group are tried in order, then the empty one. -/
def fallbackAt (s : Str) : Option Str :=
  match fallbackVerbs.findSome?
      (fun verb => if verb.isPrefixOf s then spacesThenTopic (s.drop verb.length) else none) with
  | some cap => some cap
  | none => spacesThenTopic s

/-- Group 1 of
`cmd.match(/(?:explain|tell me|give me|write|details|definition|meaning of)?\s*(.+)/)`:
the pattern is not anchored, so the leftmost position where it matches is taken. -/
def fallbackMatch : Str → Option Str
  | [] => fallbackAt []
  | c :: cs =>
    match fallbackAt (c :: cs) with
    | some cap => some cap
    | none => fallbackMatch cs

/-- The action chosen by `processTextCommand` for a normalized command. -/
inductive Intent
  /-- Lines 48-55: `site` and the `url` handed to `window.open`. -/
  | openSite (site url : Str)
  /-- Line 80: `fetchLimitedLines(topic, lines)`. -/
  | limitedLookup (topic : Str) (lines : Count)
  /-- Lines 84 and 92: `fetchDuckDuckGoAnswer(topic)`. -/
  | genericLookup (topic : Str)
  /-- Lines 96-97. -/
  | notUnderstood
deriving DecidableEq, Repr

/-- The expression `command.toLowerCase().trim()`. -/
def normalize (caseTable : Str → Str) (command : Str) : Str :=
  trim (toLowerCase caseTable command)

/-- The branch structure of `processTextCommand` on `cmd` (lines 48-97). -/
def matchIntent (cmd : Str) : Intent :=
  if startsWith cmd "open ".toList then
    let site := trim (replaceFirst "open ".toList [] cmd)
    let url :=
      if includes site "http".toList then site
      else "https://".toList ++ removeSpaces site ++ ".com".toList
    Intent.openSite site url
  else
    match firstMatch cmd with
    | some m =>
      if m.length = 3 && !isNaN (m.getD 1 []) then
        Intent.limitedLookup (singularize (trim (m.getD 2 []))) (parseInt (m.getD 1 []))
      else
        Intent.genericLookup (trim (m.getD 1 []))
    | none =>
      match fallbackMatch cmd with
      | some cap =>
        if !cap.isEmpty then Intent.genericLookup (trim cap) else Intent.notUnderstood
      | none => Intent.notUnderstood

/-- The effects of each branch of `processTextCommand`. -/
def dispatch (env : Env) : Intent → World → World
  | Intent.openSite site url, w =>
    addMessage ("Opening ".toList ++ site ++ "...".toList) Sender.assistant
      (speak ("Opening ".toList ++ site) (windowOpen url w))
  | Intent.limitedLookup topic lines, w => fetchLimitedLines env topic lines w
  | Intent.genericLookup topic, w => fetchDuckDuckGoAnswer env topic w
  | Intent.notUnderstood, w =>
    speak "I’m not sure, try again.".toList
      (addMessage "I'm not sure, but I’ll try to improve. Try asking again.".toList
        Sender.assistant w)

/-- Function `processTextCommand`. -/
def processTextCommand (caseTable : Str → Str) (env : Env) (command : Str) (w : World) :
    World :=
  dispatch env (matchIntent (normalize caseTable command)) (addMessage command Sender.user w)

/-- Function `loadChat`, for `id` a key of the store. The callback of `forEach` runs once
for each message present when the loop starts. -/
def loadChat (id : Str) (w : World) : World :=
  let w1 := { w with currentSessionId := id, chatOutput := [] }
  ((lookup id w1.sessions).getD []).foldl
    (fun acc msg => addMessage msg.content msg.sender acc) w1

/-! ## Concrete inputs -/

/-- A case table that returns its text. The concrete commands below are all of the ASCII
range, where `toLowerCase` consults no table. -/
def identityCaseTable : Str → Str :=
  fun s => s

/-- A page with one empty session, as left by the start-up code (lines 15-19). -/
def world0 : World :=
  { currentSessionId := "chat-0".toList
    sessions := [("chat-0".toList, [])]
    persisted := [("chat-0".toList, [])]
    chatOutput := []
    spoken := []
    opened := []
    requests := []
    console := []
    now := 7 }

/-- Both providers unreachable. -/
def envDown : Env :=
  { ddg := fun _ => none, wiki := fun _ => none }

/-- Provider A has nothing, Provider B has no extract. -/
def envEmpty : Env :=
  { ddg := fun _ => some ⟨[], [], [], []⟩, wiki := fun _ => some ⟨[], [], []⟩ }

/-- Provider A answers with the abstract "x". -/
def envAbstract : Env :=
  { ddg := fun _ => some ⟨"x".toList, [], [], []⟩, wiki := fun _ => none }

/-- Provider B answers with the given extract. -/
def envExtract (extract : Str) : Env :=
  { ddg := fun _ => none
    wiki := fun _ => some ⟨extract, [], "https://en.wikipedia.org/wiki/P".toList⟩ }

/-- A page with an earlier session holding one user message and an empty current session. -/
def worldOneMessage : World :=
  { world0 with
    currentSessionId := "chat-9".toList
    sessions := [("chat-0".toList, [⟨Sender.user, "hi".toList, 3⟩]), ("chat-9".toList, [])]
    persisted := [("chat-0".toList, [⟨Sender.user, "hi".toList, 3⟩]), ("chat-9".toList, [])] }

/-! ## Session store lemmas -/

theorem lookup_push_same (id : Str) (m : Message) (ss : Sessions) :
    lookup id (push id m ss) = (lookup id ss).map (fun log => log ++ [m]) := by
  induction ss with
  | nil => rfl
  | cons e rest ih =>
    obtain ⟨k, log⟩ := e
    by_cases h : k = id
    · simp [lookup, push, h]
    · simp [lookup, push, h, ih]

theorem lookup_push_other (id other : Str) (m : Message) (ss : Sessions) (h : other ≠ id) :
    lookup other (push id m ss) = lookup other ss := by
  induction ss with
  | nil => rfl
  | cons e rest ih =>
    obtain ⟨k, log⟩ := e
    by_cases hk : k = id
    · subst hk
      have : ¬ k = other := fun e => h e.symm
      simp [lookup, push, this]
    · by_cases hko : k = other
      · subst hko
        simp [lookup, push, hk]
      · simp [lookup, push, hk, hko, ih]

/-! ## String lemmas -/

theorem isEmpty_false_of_ne {s : Str} (h : s ≠ []) : s.isEmpty = false := by
  cases s with
  | nil => exact absurd rfl h
  | cons c cs => rfl

theorem isPrefixOf_append (p s : Str) : p.isPrefixOf (p ++ s) = true := by
  induction p with
  | nil => simp [List.isPrefixOf]
  | cons a p ih => simp [List.isPrefixOf, ih]

theorem takeWhile_append_stop (p : Char → Bool) (a : Str) (c : Char) (b : Str)
    (ha : ∀ x ∈ a, p x = true) (hc : p c = false) :
    (a ++ c :: b).takeWhile p = a := by
  induction a with
  | nil => simp [List.takeWhile, hc]
  | cons x a ih =>
    have hx : p x = true := ha x (List.mem_cons_self _ _)
    simp [List.takeWhile, hx, ih (fun y hy => ha y (List.mem_cons_of_mem _ hy))]

theorem dropWhile_append_stop (p : Char → Bool) (a : Str) (c : Char) (b : Str)
    (ha : ∀ x ∈ a, p x = true) (hc : p c = false) :
    (a ++ c :: b).dropWhile p = c :: b := by
  induction a with
  | nil => simp [List.dropWhile, hc]
  | cons x a ih =>
    have hx : p x = true := ha x (List.mem_cons_self _ _)
    simp [List.dropWhile, hx, ih (fun y hy => ha y (List.mem_cons_of_mem _ hy))]

theorem isWhiteSpace_of_isLineTerminator {c : Char} (h : isLineTerminator c = true) :
    isWhiteSpace c = true := by
  simp [isWhiteSpace, h]

theorem trim_head (s : Str) :
    trim s = [] ∨ ∃ c cs, trim s = c :: cs ∧ isWhiteSpace c = false := by
  unfold trim
  cases ht : s.dropWhile isWhiteSpace with
  | nil => left; simp [List.rdropWhile]
  | cons c cs =>
    have hc : isWhiteSpace c = false := by
      have := List.head_dropWhile_not isWhiteSpace s (by simp [ht])
      simpa [ht] using this
    cases hr : (c :: cs).rdropWhile isWhiteSpace with
    | nil => left; rfl
    | cons c2 cs2 =>
      right
      have hp : (c2 :: cs2) <+: (c :: cs) := hr ▸ List.rdropWhile_prefix isWhiteSpace _
      obtain ⟨t, ht2⟩ := hp
      have : c2 = c := by simpa using (List.cons.inj ht2).1
      exact ⟨c2, cs2, rfl, this ▸ hc⟩

theorem trim_nil : trim [] = [] := by decide

/-- On text of the ASCII range the result of `toLowerCase` does not depend on the table. -/
theorem toLowerCase_ascii (table1 table2 : Str → Str) (s : Str)
    (h : s.all (fun c => c.toNat < 128) = true) :
    toLowerCase table1 s = toLowerCase table2 s := by
  simp only [toLowerCase, h, if_true]

theorem replaceFirst_of_startsWith (pat cmd : Str) (hp : pat ≠ [])
    (h : startsWith cmd pat = true) : replaceFirst pat [] cmd = cmd.drop pat.length := by
  unfold startsWith at h
  cases cmd with
  | nil => cases pat with
    | nil => exact absurd rfl hp
    | cons a b => simp [List.isPrefixOf] at h
  | cons c cs => simp [replaceFirst, h]


/-! ## Splitting on the sentence delimiter -/

theorem splitDotSpace_ne_nil (s : Str) : splitDotSpace s ≠ [] := by
  induction s using splitDotSpace.induct with
  | case1 => simp [splitDotSpace]
  | case2 c => simp [splitDotSpace]
  | case3 c d rest2 h ih => simp [splitDotSpace, h]
  | case4 c d rest2 h ih =>
    simp only [splitDotSpace, h, if_false]
    cases splitDotSpace (d :: rest2) <;> simp [consHead]

theorem joinDotSpace_consHead (c : Char) (us : List Str) (h : us ≠ []) :
    joinDotSpace (consHead c us) = c :: joinDotSpace us := by
  cases us with
  | nil => exact absurd rfl h
  | cons u rest =>
    cases rest <;> simp [consHead, joinDotSpace, List.intercalate, List.intersperse]

theorem joinDotSpace_nil_cons (us : List Str) (h : us ≠ []) :
    joinDotSpace ([] :: us) = '.' :: ' ' :: joinDotSpace us := by
  cases us with
  | nil => exact absurd rfl h
  | cons u rest =>
    simp [joinDotSpace, List.intercalate, List.intersperse]

theorem joinDotSpace_splitDotSpace (s : Str) : joinDotSpace (splitDotSpace s) = s := by
  induction s using splitDotSpace.induct with
  | case1 => simp [splitDotSpace, joinDotSpace, List.intercalate]
  | case2 c => simp [splitDotSpace, joinDotSpace, List.intercalate]
  | case3 c d rest2 h ih =>
    obtain ⟨hc, hd⟩ := h
    subst hc hd
    simp only [splitDotSpace, and_self, if_true]
    rw [joinDotSpace_nil_cons _ (splitDotSpace_ne_nil _), ih]
  | case4 c d rest2 h ih =>
    simp only [splitDotSpace, h, if_false]
    rw [joinDotSpace_consHead _ _ (splitDotSpace_ne_nil _), ih]

/-- The units of a text, the last one extended by a final period. -/
theorem splitDotSpace_append_period (s : Str) :
    splitDotSpace (s ++ ['.']) =
      (splitDotSpace s).dropLast ++ [((splitDotSpace s).getLast?.getD []) ++ ['.']] := by
  induction s using splitDotSpace.induct with
  | case1 => decide
  | case2 c =>
    by_cases h : c = '.' <;> simp [splitDotSpace, consHead, h]
  | case3 c d rest2 h ih =>
    obtain ⟨hc, hd⟩ := h
    subst hc hd
    have hne := splitDotSpace_ne_nil rest2
    have e : splitDotSpace ('.' :: ' ' :: rest2 ++ ['.']) =
        [] :: splitDotSpace (rest2 ++ ['.']) := by
      show splitDotSpace ('.' :: ' ' :: (rest2 ++ ['.'])) = _
      simp [splitDotSpace]
    have e2 : splitDotSpace ('.' :: ' ' :: rest2) = [] :: splitDotSpace rest2 := by
      simp [splitDotSpace]
    rw [e, e2, ih]
    cases hs : splitDotSpace rest2 with
    | nil => exact absurd hs hne
    | cons u us => simp [List.dropLast, List.getLast?_cons_cons]
  | case4 c d rest2 h ih =>
    have hne := splitDotSpace_ne_nil (d :: rest2)
    have e : splitDotSpace (c :: d :: rest2 ++ ['.']) =
        consHead c (splitDotSpace (d :: rest2 ++ ['.'])) := by
      show splitDotSpace (c :: d :: (rest2 ++ ['.'])) = _
      simp [splitDotSpace, h]
    have e2 : splitDotSpace (c :: d :: rest2) = consHead c (splitDotSpace (d :: rest2)) := by
      simp [splitDotSpace, h]
    rw [e, e2, ih]
    cases hs : splitDotSpace (d :: rest2) with
    | nil => exact absurd hs hne
    | cons u us =>
      cases us with
      | nil => simp [consHead]
      | cons v vs => simp [consHead, List.getLast?_cons_cons]

theorem extractLines_all (extract : Str) (lines : Nat)
    (h : (splitDotSpace extract).length ≤ lines) :
    extractLines extract lines = extract ++ ".".toList := by
  show extractLines extract (Count.finite lines) = _
  simp [extractLines, sliceFromStart, List.take_of_length_le h, joinDotSpace_splitDotSpace]


/-! ## Pattern lemmas -/

theorem dotPlus_line (T : Str) (hT : T ≠ []) (hl : ∀ c ∈ T, isLineTerminator c = false) :
    dotPlus T = some T := by
  have h : T.takeWhile (fun c => !isLineTerminator c) = T := by
    rw [List.takeWhile_eq_self_iff]
    intro c hc
    simp [hl c hc]
  unfold dotPlus
  simp only [h]
  cases T with
  | nil => exact absurd rfl hT
  | cons c cs => rfl

theorem matchTopic_append (pre T : Str) (hT : T ≠ [])
    (hl : ∀ c ∈ T, isLineTerminator c = false) :
    matchTopic pre (pre ++ T) = some [pre ++ T, T] := by
  simp [matchTopic, isPrefixOf_append, dotPlus_line T hT hl]

theorem matchTopic_none (pre cmd : Str) (h : pre.isPrefixOf cmd = false) :
    matchTopic pre cmd = none := by
  simp [matchTopic, h]

theorem matchCounted_append (pre N : Str) (m : Char) (mid T : Str)
    (hN : N ≠ []) (hd : ∀ c ∈ N, c.isDigit = true) (hm : m.isDigit = false)
    (hT : T ≠ []) (hl : ∀ c ∈ T, isLineTerminator c = false) :
    matchCounted pre (m :: mid) (pre ++ N ++ (m :: mid) ++ T) =
      some [pre ++ N ++ (m :: mid) ++ T, N, T] := by
  have h1 : pre.isPrefixOf (pre ++ N ++ (m :: mid) ++ T) = true := by
    rw [List.append_assoc, List.append_assoc]; exact isPrefixOf_append _ _
  have h2 : (pre ++ N ++ (m :: mid) ++ T).drop pre.length = N ++ m :: (mid ++ T) := by
    simp [List.append_assoc]
  have h3 : (N ++ m :: (mid ++ T)).takeWhile Char.isDigit = N :=
    takeWhile_append_stop _ _ _ _ hd hm
  have h4 : (N ++ m :: (mid ++ T)).dropWhile Char.isDigit = m :: (mid ++ T) :=
    dropWhile_append_stop _ _ _ _ hd hm
  have h5 : (m :: mid).isPrefixOf (m :: (mid ++ T)) = true := isPrefixOf_append (m :: mid) T
  have h6 : N.isEmpty = false := by
    cases N with
    | nil => exact absurd rfl hN
    | cons c cs => rfl
  have h7 : (m :: (mid ++ T)).drop (m :: mid).length = T := by
    have : m :: (mid ++ T) = (m :: mid) ++ T := rfl
    rw [this, List.drop_left]
  unfold matchCounted
  simp only [h1, h2, h3, h4, h5, h6, h7, dotPlus_line T hT hl, if_true]
  simp

theorem dotPlus_ne_nil {rest cap : Str} (h : dotPlus rest = some cap) : cap ≠ [] := by
  unfold dotPlus at h
  simp only at h
  split at h
  · exact absurd h (by simp)
  · rename_i hne
    cases h
    intro he
    simp [he] at hne

theorem spacesThenTopic_ne_nil {s cap : Str} (h : spacesThenTopic s = some cap) : cap ≠ [] := by
  induction s with
  | nil => simp [spacesThenTopic] at h
  | cons c cs ih =>
    rw [spacesThenTopic] at h
    split at h
    · split at h
      · rename_i cap2 heq
        cases h
        exact ih heq
      · exact dotPlus_ne_nil h
    · exact dotPlus_ne_nil h

theorem spacesThenTopic_of_head {c : Char} (cs : Str) (h : isWhiteSpace c = false) :
    ∃ cap, spacesThenTopic (c :: cs) = some cap := by
  have hl : isLineTerminator c = false := by
    cases hlt : isLineTerminator c with
    | false => rfl
    | true => rw [isWhiteSpace_of_isLineTerminator hlt] at h; exact absurd h (by simp)
  refine ⟨c :: cs.takeWhile (fun c => !isLineTerminator c), ?_⟩
  simp [spacesThenTopic, h, dotPlus, List.takeWhile, hl]

theorem fallbackAt_ne_nil {s cap : Str} (h : fallbackAt s = some cap) : cap ≠ [] := by
  unfold fallbackAt at h
  split at h
  · rename_i cap2 heq
    cases h
    obtain ⟨verb, _, hv⟩ := List.exists_of_findSome?_eq_some heq
    split at hv
    · exact spacesThenTopic_ne_nil hv
    · exact absurd hv (by simp)
  · exact spacesThenTopic_ne_nil h

theorem fallbackAt_of_head {c : Char} (cs : Str) (h : isWhiteSpace c = false) :
    ∃ cap, fallbackAt (c :: cs) = some cap := by
  unfold fallbackAt
  split
  · exact ⟨_, rfl⟩
  · exact spacesThenTopic_of_head cs h

theorem fallbackMatch_of_head {c : Char} (cs : Str) (h : isWhiteSpace c = false) :
    ∃ cap, fallbackMatch (c :: cs) = some cap ∧ cap ≠ [] := by
  obtain ⟨cap, hcap⟩ := fallbackAt_of_head cs h
  exact ⟨cap, by simp [fallbackMatch, hcap], fallbackAt_ne_nil hcap⟩

theorem digit_ne_letter {d : Char} (hd : d.isDigit = true) : d ≠ 'i' := by
  rintro rfl
  exact absurd hd (by decide)

theorem questionPrefixes_giveMe (d : Char) (rest : Str) (hd : d.isDigit = true) :
    ∀ p ∈ questionPrefixes, p.isPrefixOf ("give me ".toList ++ d :: rest) = false := by
  have hne : ¬ 'i' = d := fun e => digit_ne_letter hd e.symm
  intro p hp
  simp only [questionPrefixes, List.map, List.mem_cons, List.mem_singleton, List.not_mem_nil,
    or_false] at hp
  rcases hp with h | h | h | h | h | h | h | h | h | h | h | h <;> subst h <;>
    simp [String.toList, List.isPrefixOf, hne]

theorem questionPrefixes_write (rest : Str) :
    ∀ p ∈ questionPrefixes, p.isPrefixOf ("write ".toList ++ rest) = false := by
  intro p hp
  simp only [questionPrefixes, List.map, List.mem_cons, List.mem_singleton, List.not_mem_nil,
    or_false] at hp
  rcases hp with h | h | h | h | h | h | h | h | h | h | h | h <;> subst h <;>
    simp [String.toList, List.isPrefixOf]


theorem firstMatch_giveMe (N T : Str)
    (hN : N ≠ []) (hd : ∀ c ∈ N, c.isDigit = true)
    (hT : T ≠ []) (hl : ∀ c ∈ T, isLineTerminator c = false) :
    firstMatch ("give me ".toList ++ N ++ " number of lines ".toList ++ T) =
      some ["give me ".toList ++ N ++ " number of lines ".toList ++ T, N, T] := by
  obtain ⟨d, N2, rfl⟩ := List.exists_cons_of_ne_nil hN
  have hq : ∀ p ∈ questionPrefixes,
      matchTopic p ("give me ".toList ++ (d :: N2) ++ " number of lines ".toList ++ T) = none := by
    intro p hp
    apply matchTopic_none
    have := questionPrefixes_giveMe d (N2 ++ " number of lines ".toList ++ T)
      (hd d (List.mem_cons_self _ _)) p hp
    simpa [List.append_assoc] using this
  have hm := matchCounted_append "give me ".toList (d :: N2) ' ' "number of lines ".toList T
    hN hd (by decide) hT hl
  have hnone : (questionPrefixes.map matchTopic).findSome?
      (fun pattern => pattern
        ("give me ".toList ++ (d :: N2) ++ " number of lines ".toList ++ T)) = none := by
    rw [List.findSome?_eq_none_iff]
    intro f hf
    obtain ⟨p, hp, rfl⟩ := List.mem_map.1 hf
    exact hq p hp
  unfold firstMatch patterns
  rw [List.findSome?_append, hnone]
  simp only [Option.none_or, List.findSome?]
  have e : " number of lines ".toList = ' ' :: "number of lines ".toList := rfl
  rw [e, hm]

theorem firstMatch_write (N T : Str)
    (hN : N ≠ []) (hd : ∀ c ∈ N, c.isDigit = true)
    (hT : T ≠ []) (hl : ∀ c ∈ T, isLineTerminator c = false) :
    firstMatch ("write ".toList ++ N ++ " number of ".toList ++ T) =
      some ["write ".toList ++ N ++ " number of ".toList ++ T, N, T] := by
  have hq : ∀ p ∈ questionPrefixes,
      matchTopic p ("write ".toList ++ N ++ " number of ".toList ++ T) = none := by
    intro p hp
    apply matchTopic_none
    have := questionPrefixes_write (N ++ " number of ".toList ++ T) p hp
    simpa [List.append_assoc] using this
  have hm := matchCounted_append "write ".toList N ' ' "number of ".toList T
    hN hd (by decide) hT hl
  have hg : matchCounted "give me ".toList " number of lines ".toList
      ("write ".toList ++ N ++ " number of ".toList ++ T) = none := by
    simp [matchCounted, String.toList, List.isPrefixOf]
  have hnone : (questionPrefixes.map matchTopic).findSome?
      (fun pattern => pattern ("write ".toList ++ N ++ " number of ".toList ++ T)) = none := by
    rw [List.findSome?_eq_none_iff]
    intro f hf
    obtain ⟨p, hp, rfl⟩ := List.mem_map.1 hf
    exact hq p hp
  unfold firstMatch patterns
  rw [List.findSome?_append, hnone]
  simp only [Option.none_or, List.findSome?, hg]
  have e : " number of ".toList = ' ' :: "number of ".toList := rfl
  rw [e, hm]

theorem isNaN_digits (N : Str) (hN : N ≠ []) (hd : ∀ c ∈ N, c.isDigit = true) :
    isNaN N = false := by
  have h1 : N.isEmpty = false := by
    cases N with
    | nil => exact absurd rfl hN
    | cons c cs => rfl
  have h2 : N.all Char.isDigit = true := List.all_eq_true.2 hd
  simp [isNaN, h1, h2]

theorem decimalValue_eq_ofDigits (N : Str) :
    decimalValue N = Nat.ofDigits 10 ((N.map (fun c => c.toNat - '0'.toNat)).reverse) := by
  unfold decimalValue
  rw [Nat.ofDigits_eq_foldr, List.foldr_reverse, List.foldl_map]
  congr 1
  funext n c
  simp [Nat.add_comm]

theorem parseInt_digits (N : Str) (hd : ∀ c ∈ N, c.isDigit = true) :
    parseInt N = toNumber (decimalValue N) := by
  have h : N.takeWhile Char.isDigit = N := by
    rw [List.takeWhile_eq_self_iff]; exact hd
  unfold parseInt
  rw [h]

theorem toNumber_exact (n : Nat) (h : n < 2 ^ 53) : toNumber n = Count.finite n := by
  unfold toNumber
  rw [if_pos h]

theorem singularize_concat (word : Str) : singularize (word ++ ['s']) = word := by
  simp [singularize]

theorem singularize_other (word : Str) (h : word.getLast? ≠ some 's') :
    singularize word = word := by
  simp [singularize, h]

theorem matchIntent_counted (cmd N T : Str)
    (hopen : startsWith cmd "open ".toList = false)
    (hm : firstMatch cmd = some [cmd, N, T])
    (hN : N ≠ []) (hd : ∀ c ∈ N, c.isDigit = true) :
    matchIntent cmd = Intent.limitedLookup (singularize (trim T)) (parseInt N) := by
  unfold matchIntent
  rw [if_neg (by rw [hopen]; simp)]
  simp [hm, isNaN_digits N hN hd]

theorem matchIntent_nil : matchIntent [] = Intent.notUnderstood := by decide

theorem matchIntent_of_ne_nil {cmd : Str} (c : Char) (cs : Str) (hcmd : cmd = c :: cs)
    (h : isWhiteSpace c = false) :
    (∃ site url, matchIntent cmd = Intent.openSite site url) ∨
    (∃ topic lines, matchIntent cmd = Intent.limitedLookup topic lines) ∨
    (∃ topic, matchIntent cmd = Intent.genericLookup topic) := by
  subst hcmd
  unfold matchIntent
  split
  · exact Or.inl ⟨_, _, rfl⟩
  · split
    · split
      · exact Or.inr (Or.inl ⟨_, _, rfl⟩)
      · exact Or.inr (Or.inr ⟨_, rfl⟩)
    · obtain ⟨cap, hcap, hne⟩ := fallbackMatch_of_head cs h
      rw [hcap]
      simp only
      have : cap.isEmpty = false := by cases cap <;> simp_all
      simp only [this]
      exact Or.inr (Or.inr ⟨_, rfl⟩)


/-! ## Provider lemmas -/

theorem firstAnswer_eq_nil_iff (d : DdgData) :
    firstAnswer d = [] ↔ d.Abstract = [] ∧ d.Answer = [] ∧ d.Definition = [] := by
  unfold firstAnswer
  cases hA : d.Abstract <;> cases hB : d.Answer <;> cases hC : d.Definition <;> simp

theorem requests_fetchWikipediaSummary (env : Env) (query : Str) (w : World) :
    (fetchWikipediaSummary env query w).requests = w.requests ++ [(Provider.B, query)] := by
  unfold fetchWikipediaSummary
  cases env.wiki query with
  | none => simp [speak, addMessage, saveSessions, pushCurrent, appendChild, consoleError, request]
  | some data =>
    cases h : data.extract <;>
      simp [speak, addMessage, saveSessions, pushCurrent, appendChild, request, h]

theorem requests_fetchLimitedLines (env : Env) (topic : Str) (lines : Count) (w : World) :
    (fetchLimitedLines env topic lines w).requests = w.requests ++ [(Provider.B, topic)] := by
  unfold fetchLimitedLines
  cases env.wiki topic with
  | none => simp [speak, addMessage, saveSessions, pushCurrent, appendChild, consoleError, request]
  | some data =>
    cases h : data.extract <;>
      simp [speak, addMessage, saveSessions, pushCurrent, appendChild, request, h]


/-! ## Replaying a session -/

theorem replay_sessions (msgs : List Message) (w : World) :
    (msgs.foldl (fun acc msg => addMessage msg.content msg.sender acc) w).currentSessionId =
      w.currentSessionId ∧
    (msgs.foldl (fun acc msg => addMessage msg.content msg.sender acc) w).now = w.now ∧
    (∀ log, lookup w.currentSessionId w.sessions = some log →
      lookup w.currentSessionId
          (msgs.foldl (fun acc msg => addMessage msg.content msg.sender acc) w).sessions =
        some (log ++ msgs.map (fun m => ⟨m.sender, m.content, w.now⟩))) ∧
    (∀ other, other ≠ w.currentSessionId →
      lookup other
          (msgs.foldl (fun acc msg => addMessage msg.content msg.sender acc) w).sessions =
        lookup other w.sessions) := by
  induction msgs generalizing w with
  | nil => simp
  | cons m rest ih =>
    have h := ih (addMessage m.content m.sender w)
    have hc : (addMessage m.content m.sender w).currentSessionId = w.currentSessionId := rfl
    have hn : (addMessage m.content m.sender w).now = w.now := rfl
    have hs : (addMessage m.content m.sender w).sessions =
        push w.currentSessionId ⟨m.sender, m.content, w.now⟩ w.sessions := rfl
    rw [hc, hn, hs] at h
    obtain ⟨h1, h2, h3, h4⟩ := h
    refine ⟨h1, h2, ?_, ?_⟩
    · intro log hlog
      have := h3 (log ++ [⟨m.sender, m.content, w.now⟩]) (by rw [lookup_push_same, hlog]; rfl)
      simpa [List.foldl] using this
    · intro other hne
      have := h4 other hne
      rw [lookup_push_other _ _ _ _ hne] at this
      simpa [List.foldl] using this

/-! ## Opening a site -/

/-- Claim C1 (amended): for every command whose normalized form (lower-cased, trimmed)
starts with "open ", `processTextCommand` opens exactly one URL and queries no provider; with
`site` the normalized text after "open ", trimmed, the URL is `site` itself when `site`
contains "http" (in lower case, not as typed), and otherwise "https://" followed by `site`
with its spaces removed followed by ".com". -/
theorem openCommand_url (caseTable : Str → Str) (env : Env) (command : Str) (w : World)
    (h : startsWith (normalize caseTable command) "open ".toList = true) :
    matchIntent (normalize caseTable command) =
      Intent.openSite (trim ((normalize caseTable command).drop 5))
        (if includes (trim ((normalize caseTable command).drop 5)) "http".toList
          then trim ((normalize caseTable command).drop 5)
          else "https://".toList ++ removeSpaces (trim ((normalize caseTable command).drop 5)) ++
            ".com".toList) ∧
    (processTextCommand caseTable env command w).opened =
      w.opened ++
        [if includes (trim ((normalize caseTable command).drop 5)) "http".toList
          then trim ((normalize caseTable command).drop 5)
          else "https://".toList ++ removeSpaces (trim ((normalize caseTable command).drop 5)) ++
            ".com".toList] ∧
    (processTextCommand caseTable env command w).requests = w.requests := by
  have hr : replaceFirst "open ".toList [] (normalize caseTable command) = (normalize caseTable command).drop 5 :=
    replaceFirst_of_startsWith _ _ (by decide) h
  have hi : matchIntent (normalize caseTable command) =
      Intent.openSite (trim ((normalize caseTable command).drop 5))
        (if includes (trim ((normalize caseTable command).drop 5)) "http".toList
          then trim ((normalize caseTable command).drop 5)
          else "https://".toList ++ removeSpaces (trim ((normalize caseTable command).drop 5)) ++
            ".com".toList) := by
    unfold matchIntent
    rw [if_pos h, hr]
  refine ⟨hi, ?_, ?_⟩
  · rw [processTextCommand, hi]
    simp [dispatch, addMessage, saveSessions, pushCurrent, appendChild, speak, windowOpen]
  · rw [processTextCommand, hi]
    simp [dispatch, addMessage, saveSessions, pushCurrent, appendChild, speak, windowOpen]

/-- Witness for C1: "Open You Tube" opens "https://youtube.com". -/
theorem openCommand_url_witness :
    startsWith (normalize identityCaseTable "Open You Tube".toList) "open ".toList = true ∧
    (processTextCommand identityCaseTable envDown "Open You Tube".toList world0).opened =
      ["https://youtube.com".toList] :=
  ⟨by decide, by
    have h := (openCommand_url identityCaseTable envDown "Open You Tube".toList world0 (by decide)).2.1
    rw [h]; decide⟩

/-- Counterexample to C1 as stated: the command "open http://A.com/Doc" starts with "open "
and the text after it contains "http", yet the URL opened is "http://a.com/doc", not the text
as typed; and the command "open" followed by two spaces starts with "open " but opens no URL
and queries both providers for "open". -/
theorem openCommand_not_as_typed :
    ("open ".toList <+: "open http://A.com/Doc".toList ∧
      includes (trim ("open http://A.com/Doc".toList.drop 5)) "http".toList = true ∧
      (processTextCommand identityCaseTable envDown "open http://A.com/Doc".toList world0).opened =
        ["http://a.com/doc".toList] ∧
      (processTextCommand identityCaseTable envDown "open http://A.com/Doc".toList world0).opened ≠
        [trim ("open http://A.com/Doc".toList.drop 5)]) ∧
    ("open ".toList <+: "open  ".toList ∧
      (processTextCommand identityCaseTable envDown "open  ".toList world0).opened = [] ∧
      (processTextCommand identityCaseTable envDown "open  ".toList world0).requests =
        [(Provider.A, "open".toList), (Provider.B, "open".toList)]) := by
  decide


/-! ## Quantified lookups -/

/-- Claim C2 (amended): a normalized command "give me N number of lines T" or "write N number
of T", with `N` a non-empty run of digits and `T` non-empty without line terminators,
dispatches `fetchLimitedLines` with topic `singularize (trim T)` and with line limit the
Number value of `N`: the number `N` itself when it is below `2 ^ 53`, in general `N` rounded
to a double; the only request issued goes to Provider B; none of the twelve question patterns
matches the command; `singularize` drops one trailing "s" and leaves any other word unchanged
("cats" to "cat", "bus" to "bu", "cat" to "cat"). -/
theorem countedCommand_limitedLookup (caseTable : Str → Str) (env : Env)
    (command N T : Str) (w : World)
    (hN : N ≠ []) (hd : ∀ c ∈ N, c.isDigit = true)
    (hT : T ≠ []) (hl : ∀ c ∈ T, isLineTerminator c = false)
    (hcmd : normalize caseTable command = "give me ".toList ++ N ++ " number of lines ".toList ++ T ∨
      normalize caseTable command = "write ".toList ++ N ++ " number of ".toList ++ T) :
    matchIntent (normalize caseTable command) =
      Intent.limitedLookup (singularize (trim T)) (parseInt N) ∧
    processTextCommand caseTable env command w =
      fetchLimitedLines env (singularize (trim T)) (parseInt N)
        (addMessage command Sender.user w) ∧
    (processTextCommand caseTable env command w).requests =
      w.requests ++ [(Provider.B, singularize (trim T))] ∧
    parseInt N = toNumber (decimalValue N) ∧
    decimalValue N = Nat.ofDigits 10 ((N.map (fun c => c.toNat - '0'.toNat)).reverse) ∧
    (decimalValue N < 2 ^ 53 → parseInt N = Count.finite (decimalValue N)) ∧
    (∀ p ∈ questionPrefixes, matchTopic p (normalize caseTable command) = none) ∧
    (∀ word : Str, singularize (word ++ ['s']) = word) ∧
    (∀ word : Str, word.getLast? ≠ some 's' → singularize word = word) ∧
    singularize "cats".toList = "cat".toList ∧
    singularize "bus".toList = "bu".toList ∧
    singularize "cat".toList = "cat".toList := by
  have hi : matchIntent (normalize caseTable command) =
      Intent.limitedLookup (singularize (trim T)) (parseInt N) := by
    rcases hcmd with h | h
    · rw [h]
      exact matchIntent_counted _ N T (by simp [startsWith, String.toList, List.isPrefixOf])
        (firstMatch_giveMe N T hN hd hT hl) hN hd
    · rw [h]
      exact matchIntent_counted _ N T (by simp [startsWith, String.toList, List.isPrefixOf])
        (firstMatch_write N T hN hd hT hl) hN hd
  have hq : ∀ p ∈ questionPrefixes, matchTopic p (normalize caseTable command) = none := by
    intro p hp
    apply matchTopic_none
    rcases hcmd with h | h
    · obtain ⟨d, N2, rfl⟩ := List.exists_cons_of_ne_nil hN
      rw [h]
      have := questionPrefixes_giveMe d (N2 ++ " number of lines ".toList ++ T)
        (hd d (List.mem_cons_self _ _)) p hp
      simpa [List.append_assoc] using this
    · rw [h]
      have := questionPrefixes_write (N ++ " number of ".toList ++ T) p hp
      simpa [List.append_assoc] using this
  have hp : processTextCommand caseTable env command w =
      fetchLimitedLines env (singularize (trim T)) (parseInt N)
        (addMessage command Sender.user w) := by
    rw [processTextCommand, hi, dispatch]
  refine ⟨hi, hp, ?_, parseInt_digits N hd, decimalValue_eq_ofDigits N, ?_, hq,
    singularize_concat, singularize_other, by decide, by decide, by decide⟩
  swap
  · intro hlt
    rw [parseInt_digits N hd, toNumber_exact _ hlt]
  rw [hp, requests_fetchLimitedLines]
  rfl

/-- Witness for C2: "Give me 3 number of lines  cats" asks for 3 lines about "cat". -/
theorem countedCommand_limitedLookup_witness :
    normalize identityCaseTable "Give me 3 number of lines  cats".toList =
      "give me ".toList ++ "3".toList ++ " number of lines ".toList ++ " cats".toList ∧
    matchIntent (normalize identityCaseTable "Give me 3 number of lines  cats".toList) =
      Intent.limitedLookup "cat".toList (Count.finite 3) :=
  ⟨by decide,
    ((countedCommand_limitedLookup identityCaseTable envDown
      "Give me 3 number of lines  cats".toList "3".toList " cats".toList world0
      (by decide) (by decide) (by decide) (by decide) (Or.inl (by decide))).1).trans
      (by decide)⟩

/-- Counterexample to C2 as stated: in the normalized command
"give me 9007199254740993 number of lines cats" the run of digits is the number
9007199254740993, and the line limit dispatched is 9007199254740992. -/
theorem countedCommand_rounded_limit :
    normalize identityCaseTable "give me 9007199254740993 number of lines cats".toList =
      "give me ".toList ++ "9007199254740993".toList ++ " number of lines ".toList ++
        "cats".toList ∧
    decimalValue "9007199254740993".toList = 9007199254740993 ∧
    matchIntent
        (normalize identityCaseTable "give me 9007199254740993 number of lines cats".toList) =
      Intent.limitedLookup "cat".toList (Count.finite 9007199254740992) ∧
    Count.finite 9007199254740992 ≠ Count.finite 9007199254740993 := by
  decide


/-! ## Truncated extracts -/

/-- Claim C3: for a non-empty Provider B extract and any line limit, the text that
`fetchLimitedLines` speaks and appends to the current session is the first `lines` units of
the extract split on ". ", rejoined with ". ", followed by one "."; the rendered paragraph is
that text behind the book sign; for "A. B. C. D." and 2 the text is "A. B.". -/
theorem limitedLines_text (env : Env) (topic : Str) (lines : Nat) (w : World)
    (data : WikiData) (log : List Message)
    (hB : env.wiki topic = some data) (hne : data.extract ≠ [])
    (hcur : lookup w.currentSessionId w.sessions = some log) :
    (fetchLimitedLines env topic lines w).spoken =
        w.spoken ++ [joinDotSpace ((splitDotSpace data.extract).take lines) ++ ['.']] ∧
    lookup (fetchLimitedLines env topic lines w).currentSessionId
        (fetchLimitedLines env topic lines w).sessions =
      some (log ++ [⟨Sender.assistant,
        joinDotSpace ((splitDotSpace data.extract).take lines) ++ ['.'], w.now⟩]) ∧
    (fetchLimitedLines env topic lines w).chatOutput =
      w.chatOutput ++ [Node.wikiResult
        (if data.thumbnail.isEmpty then none else some (data.thumbnail, topic))
        ("📖 ".toList ++ (joinDotSpace ((splitDotSpace data.extract).take lines) ++ ['.']))
        data.page] ∧
    (fetchLimitedLines env topic lines w).persisted =
      (fetchLimitedLines env topic lines w).sessions ∧
    extractLines "A. B. C. D.".toList 2 = "A. B.".toList := by
  have hne2 : data.extract.isEmpty = false := by
    cases h : data.extract with
    | nil => exact absurd h hne
    | cons c cs => rfl
  refine ⟨?_, ?_, ?_, ?_, by decide⟩ <;>
    simp [fetchLimitedLines, hB, hne2, saveSessions, pushCurrent, speak, appendChild, request,
      wikiContainer, extractLines, sliceFromStart, lookup_push_same, hcur]

/-- Witness for C3: extract "A. B. C. D." with limit 2 is spoken as "A. B.". -/
theorem limitedLines_text_witness :
    (fetchLimitedLines (envExtract "A. B. C. D.".toList) "python".toList 2 world0).spoken =
      ["A. B.".toList] := by
  exact ((limitedLines_text (envExtract "A. B. C. D.".toList) "python".toList 2 world0
    ⟨"A. B. C. D.".toList, [], "https://en.wikipedia.org/wiki/P".toList⟩ [] rfl (by decide)
    rfl).1).trans (by decide)

/-- Counterexample to C4 as stated: for the 3-unit extract "A. B. C." and limit 10 the text
spoken and logged is "A. B. C..", whose units are "A", "B", "C..", not the units "A", "B",
"C." of the extract. -/
theorem limitedLines_double_period :
    (fetchLimitedLines (envExtract "A. B. C.".toList) "python".toList 10 world0).spoken =
      ["A. B. C..".toList] ∧
    splitDotSpace "A. B. C.".toList = ["A".toList, "B".toList, "C.".toList] ∧
    splitDotSpace "A. B. C..".toList = ["A".toList, "B".toList, "C..".toList] ∧
    lookup "chat-0".toList
      (fetchLimitedLines (envExtract "A. B. C.".toList) "python".toList 10 world0).sessions =
      some [⟨Sender.assistant, "A. B. C..".toList, 7⟩] := by
  decide

/-- Claim C4 (amended): for a non-empty Provider B extract with `k` units and a line limit
of at least `k`, `fetchLimitedLines` does not fail and keeps every unit, adding none: the text
spoken and logged is the whole extract followed by the one "." that is always appended, so
its units are those of the extract with the last one extended by that ".". -/
theorem limitedLines_all_units (env : Env) (topic : Str) (lines : Nat) (w : World)
    (data : WikiData) (log : List Message)
    (hB : env.wiki topic = some data) (hne : data.extract ≠ [])
    (hk : (splitDotSpace data.extract).length ≤ lines)
    (hcur : lookup w.currentSessionId w.sessions = some log) :
    (fetchLimitedLines env topic lines w).spoken = w.spoken ++ [data.extract ++ ['.']] ∧
    lookup (fetchLimitedLines env topic lines w).currentSessionId
        (fetchLimitedLines env topic lines w).sessions =
      some (log ++ [⟨Sender.assistant, data.extract ++ ['.'], w.now⟩]) ∧
    joinDotSpace ((splitDotSpace data.extract).take lines) = data.extract ∧
    splitDotSpace (data.extract ++ ['.']) =
      (splitDotSpace data.extract).dropLast ++
        [((splitDotSpace data.extract).getLast?.getD []) ++ ['.']] ∧
    (splitDotSpace (data.extract ++ ['.'])).length = (splitDotSpace data.extract).length := by
  have hne2 : data.extract.isEmpty = false := isEmpty_false_of_ne hne
  have hall : extractLines data.extract lines = data.extract ++ ['.'] :=
    extractLines_all data.extract lines hk
  have hlen : (splitDotSpace data.extract).length ≠ 0 := by
    simpa using splitDotSpace_ne_nil data.extract
  refine ⟨?_, ?_, ?_, splitDotSpace_append_period _, ?_⟩
  · simp [fetchLimitedLines, hB, hne2, saveSessions, pushCurrent, speak, appendChild, request,
      hall]
  · simp [fetchLimitedLines, hB, hne2, saveSessions, pushCurrent, speak, appendChild, request,
      hall, lookup_push_same, hcur]
  · rw [List.take_of_length_le hk, joinDotSpace_splitDotSpace]
  · rw [splitDotSpace_append_period]
    simp only [List.length_append, List.length_dropLast, List.length_singleton]
    omega

/-- Witness for C4: extract "A. B. C." with limit 10 is spoken as "A. B. C..". -/
theorem limitedLines_all_units_witness :
    (fetchLimitedLines (envExtract "A. B. C.".toList) "python".toList 10 world0).spoken =
      world0.spoken ++ ["A. B. C.".toList ++ ['.']] :=
  (limitedLines_all_units (envExtract "A. B. C.".toList) "python".toList 10 world0
    ⟨"A. B. C.".toList, [], "https://en.wikipedia.org/wiki/P".toList⟩ [] rfl (by decide)
    (by decide) rfl).1


/-! ## Generic lookups -/

/-- Claim C5: in `fetchDuckDuckGoAnswer`, Provider B is queried exactly when the call to
Provider A fails or its Abstract, Answer and Definition are all empty, and then once, after
Provider A, with the same query; with a non-empty Abstract only Provider A is queried; and
for every Provider B the page state reached when Provider A fails equals, in every component
but the developer console, the one reached when Provider A returns an empty answer. -/
theorem genericLookup_fallback (env : Env) (query : Str) (w : World) :
    ((env.ddg query = none ∨
        ∃ d, env.ddg query = some d ∧ d.Abstract = [] ∧ d.Answer = [] ∧ d.Definition = []) →
      (fetchDuckDuckGoAnswer env query w).requests =
        w.requests ++ [(Provider.A, query), (Provider.B, query)]) ∧
    (¬ (env.ddg query = none ∨
        ∃ d, env.ddg query = some d ∧ d.Abstract = [] ∧ d.Answer = [] ∧ d.Definition = []) →
      (fetchDuckDuckGoAnswer env query w).requests = w.requests ++ [(Provider.A, query)]) ∧
    (∀ d, env.ddg query = some d → d.Abstract ≠ [] →
      (fetchDuckDuckGoAnswer env query w).requests = w.requests ++ [(Provider.A, query)]) ∧
    (∀ (wiki : Str → Option WikiData) (d : DdgData),
      d.Abstract = [] → d.Answer = [] → d.Definition = [] →
      { fetchDuckDuckGoAnswer ⟨fun _ => none, wiki⟩ query w with console := [] } =
      { fetchDuckDuckGoAnswer ⟨fun _ => some d, wiki⟩ query w with console := [] }) := by
  have hpos : ∀ d, env.ddg query = some d → firstAnswer d ≠ [] →
      (fetchDuckDuckGoAnswer env query w).requests = w.requests ++ [(Provider.A, query)] := by
    intro d hd hne
    unfold fetchDuckDuckGoAnswer
    simp only [hd, isEmpty_false_of_ne hne]
    cases d.AbstractURL <;>
      simp [speak, addMessage, saveSessions, pushCurrent, appendChild, request]
  refine ⟨?_, ?_, ?_, ?_⟩
  · rintro (h | ⟨d, hd, hA, hB, hC⟩)
    · simp [fetchDuckDuckGoAnswer, h, requests_fetchWikipediaSummary, consoleError, request]
    · have he : firstAnswer d = [] := (firstAnswer_eq_nil_iff d).2 ⟨hA, hB, hC⟩
      simp [fetchDuckDuckGoAnswer, hd, he, requests_fetchWikipediaSummary, request]
  · intro h
    cases hd : env.ddg query with
    | none => exact absurd (Or.inl hd) h
    | some d =>
      apply hpos d hd
      intro he
      exact h (Or.inr ⟨d, hd, (firstAnswer_eq_nil_iff d).1 he⟩)
  · intro d hd hA
    apply hpos d hd
    intro he
    exact hA ((firstAnswer_eq_nil_iff d).1 he).1
  · intro wiki d hA hB hC
    have he : firstAnswer d = [] := (firstAnswer_eq_nil_iff d).2 ⟨hA, hB, hC⟩
    simp only [fetchDuckDuckGoAnswer, he, fetchWikipediaSummary]
    cases wiki query with
    | none =>
      simp [speak, addMessage, saveSessions, pushCurrent, appendChild, consoleError, request]
    | some data =>
      cases h : data.extract <;>
        simp [speak, addMessage, saveSessions, pushCurrent, appendChild, consoleError,
          request, h, wikiContainer]

/-- Witness for C5: a failing Provider A is followed by one Provider B request, an abstract
by none. -/
theorem genericLookup_fallback_witness :
    (fetchDuckDuckGoAnswer envDown "rust".toList world0).requests =
      [(Provider.A, "rust".toList), (Provider.B, "rust".toList)] ∧
    (fetchDuckDuckGoAnswer envAbstract "rust".toList world0).requests =
      [(Provider.A, "rust".toList)] :=
  ⟨(genericLookup_fallback envDown "rust".toList world0).1 (Or.inl rfl),
   (genericLookup_fallback envAbstract "rust".toList world0).2.2.1
     ⟨"x".toList, [], [], []⟩ rfl (by decide)⟩

/-- Claim C6: when Provider A returns an empty answer and Provider B returns no extract,
`fetchDuckDuckGoAnswer` renders "I couldn't find an answer. Try rephrasing." as an assistant
message and the current session's log grows by exactly that one message; the store is
otherwise unchanged and is persisted. -/
theorem notFound_logged_once (env : Env) (query : Str) (w : World)
    (a : DdgData) (b : WikiData) (log : List Message)
    (hA : env.ddg query = some a)
    (hAe : a.Abstract = [] ∧ a.Answer = [] ∧ a.Definition = [])
    (hB : env.wiki query = some b) (hBe : b.extract = [])
    (hcur : lookup w.currentSessionId w.sessions = some log) :
    (fetchDuckDuckGoAnswer env query w).currentSessionId = w.currentSessionId ∧
    lookup w.currentSessionId (fetchDuckDuckGoAnswer env query w).sessions =
      some (log ++ [⟨Sender.assistant,
        "I couldn't find an answer. Try rephrasing.".toList, w.now⟩]) ∧
    (fetchDuckDuckGoAnswer env query w).sessions =
      push w.currentSessionId
        ⟨Sender.assistant, "I couldn't find an answer. Try rephrasing.".toList, w.now⟩
        w.sessions ∧
    (fetchDuckDuckGoAnswer env query w).chatOutput =
      w.chatOutput ++
        [Node.message Sender.assistant "I couldn't find an answer. Try rephrasing.".toList] ∧
    (fetchDuckDuckGoAnswer env query w).persisted =
      (fetchDuckDuckGoAnswer env query w).sessions := by
  have he : firstAnswer a = [] := (firstAnswer_eq_nil_iff a).2 hAe
  refine ⟨?_, ?_, ?_, ?_, ?_⟩ <;>
    simp [fetchDuckDuckGoAnswer, fetchWikipediaSummary, hA, he, hB, hBe, speak, addMessage,
      saveSessions, pushCurrent, appendChild, request, lookup_push_same, hcur]

/-- Witness for C6: on the start-up page the log becomes the single not-found message. -/
theorem notFound_logged_once_witness :
    lookup world0.currentSessionId
        (fetchDuckDuckGoAnswer envEmpty "zzz".toList world0).sessions =
      some ([] ++ [⟨Sender.assistant,
        "I couldn't find an answer. Try rephrasing.".toList, world0.now⟩]) :=
  (notFound_logged_once envEmpty "zzz".toList world0 ⟨[], [], [], []⟩ ⟨[], [], []⟩ []
    rfl ⟨rfl, rfl, rfl⟩ rfl rfl rfl).2.1

/-- Claim C8, evaluated where it fails: when Provider A answers with the abstract "x", the
one message appended to the session has content "📖 x" while the text spoken is "x"; on the
Provider B path, for the extract "x", the content appended and the text spoken are both
"x". -/
theorem providerA_log_has_decoration :
    lookup "chat-0".toList (fetchDuckDuckGoAnswer envAbstract "rust".toList world0).sessions =
      some [⟨Sender.assistant, "📖 x".toList, 7⟩] ∧
    (fetchDuckDuckGoAnswer envAbstract "rust".toList world0).spoken = ["x".toList] ∧
    lookup "chat-0".toList
        (fetchDuckDuckGoAnswer (envExtract "x".toList) "rust".toList world0).sessions =
      some [⟨Sender.assistant, "x".toList, 7⟩] ∧
    (fetchDuckDuckGoAnswer (envExtract "x".toList) "rust".toList world0).spoken =
      ["x".toList] := by
  decide

/-- What `fetchDuckDuckGoAnswer` appends and speaks for a usable answer: on the Provider A
path the first non-empty of Abstract, Answer, Definition is spoken and logged behind the book
sign; on the Provider B path the extract is spoken and logged as it is. -/
theorem genericLookup_answer_log (env : Env) (query : Str) (w : World) (log : List Message)
    (hcur : lookup w.currentSessionId w.sessions = some log) :
    (∀ d, env.ddg query = some d → firstAnswer d ≠ [] →
      lookup w.currentSessionId (fetchDuckDuckGoAnswer env query w).sessions =
        some (log ++ [⟨Sender.assistant, "📖 ".toList ++ firstAnswer d, w.now⟩]) ∧
      (fetchDuckDuckGoAnswer env query w).spoken = w.spoken ++ [firstAnswer d]) ∧
    (∀ b, (env.ddg query = none ∨ ∃ d, env.ddg query = some d ∧ firstAnswer d = []) →
      env.wiki query = some b → b.extract ≠ [] →
      lookup w.currentSessionId (fetchDuckDuckGoAnswer env query w).sessions =
        some (log ++ [⟨Sender.assistant, b.extract, w.now⟩]) ∧
      (fetchDuckDuckGoAnswer env query w).spoken = w.spoken ++ [b.extract]) := by
  constructor
  · intro d hd hne
    unfold fetchDuckDuckGoAnswer
    simp only [hd, isEmpty_false_of_ne hne]
    cases d.AbstractURL <;>
      simp [speak, addMessage, saveSessions, pushCurrent, appendChild, request,
        lookup_push_same, hcur]
  · intro b hA hB hne
    have hne2 := isEmpty_false_of_ne hne
    rcases hA with h | ⟨d, hd, he⟩
    · simp [fetchDuckDuckGoAnswer, fetchWikipediaSummary, h, hB, hne2, speak, saveSessions,
        pushCurrent, appendChild, request, consoleError, lookup_push_same, hcur]
    · simp [fetchDuckDuckGoAnswer, fetchWikipediaSummary, hd, he, hB, hne2, speak,
        saveSessions, pushCurrent, appendChild, request, lookup_push_same, hcur]


/-! ## The catch-all and the not-understood response -/

/-- Claim C7: `processTextCommand` takes the not-understood branch exactly when the command
is empty after normalization, and then appends and speaks the not-understood texts; for a
non-empty normalized command the fallback pattern matches with a non-empty group 1, so one of
open-site, limited lookup or generic lookup is dispatched. -/
theorem notUnderstood_iff_empty (caseTable : Str → Str) (env : Env) (command : Str)
    (w : World) :
    (matchIntent (normalize caseTable command) = Intent.notUnderstood ↔ normalize caseTable command = []) ∧
    (normalize caseTable command = [] →
      processTextCommand caseTable env command w =
        speak "I’m not sure, try again.".toList
          (addMessage "I'm not sure, but I’ll try to improve. Try asking again.".toList
            Sender.assistant (addMessage command Sender.user w))) ∧
    (normalize caseTable command ≠ [] →
      ∃ cap, fallbackMatch (normalize caseTable command) = some cap ∧ cap ≠ []) ∧
    (normalize caseTable command ≠ [] →
      (∃ site url, matchIntent (normalize caseTable command) = Intent.openSite site url) ∨
      (∃ topic lines, matchIntent (normalize caseTable command) = Intent.limitedLookup topic lines) ∨
      (∃ topic, matchIntent (normalize caseTable command) = Intent.genericLookup topic)) := by
  have key : normalize caseTable command ≠ [] →
      ∃ c cs, normalize caseTable command = c :: cs ∧ isWhiteSpace c = false := by
    intro hne
    rcases trim_head (toLowerCase caseTable command) with h | h
    · exact absurd h hne
    · exact h
  refine ⟨⟨?_, ?_⟩, ?_, ?_, ?_⟩
  · intro h
    by_contra hne
    obtain ⟨c, cs, hc, hw⟩ := key hne
    rcases matchIntent_of_ne_nil c cs hc hw with ⟨_, _, h2⟩ | ⟨_, _, h2⟩ | ⟨_, h2⟩ <;>
      rw [h2] at h <;> cases h
  · intro h
    rw [h]
    exact matchIntent_nil
  · intro h
    simp [processTextCommand, h, matchIntent_nil, dispatch]
  · intro hne
    obtain ⟨c, cs, hc, hw⟩ := key hne
    rw [hc]
    exact fallbackMatch_of_head cs hw
  · intro hne
    obtain ⟨c, cs, hc, hw⟩ := key hne
    exact matchIntent_of_ne_nil c cs hc hw

/-- Witness for C7: "Hello there" is non-empty after normalization and the fallback pattern
matches it. -/
theorem notUnderstood_iff_empty_witness :
    normalize identityCaseTable "Hello there".toList ≠ [] ∧
    ∃ cap, fallbackMatch (normalize identityCaseTable "Hello there".toList) = some cap ∧ cap ≠ [] :=
  ⟨by decide, (notUnderstood_iff_empty identityCaseTable envDown "Hello there".toList world0).2.2.1 (by decide)⟩


/-! ## Question patterns -/

/-- Claim C9 (amended): for each question prefix of the pattern list other than "what is
that", a normalized command made of that prefix, a space and a remainder `R` without line
terminators whose trim is non-empty dispatches a generic lookup, with no line limit, whose
topic is `trim R`. A command "what is that R" falls under the prefix "what is", which comes
first in the list, with remainder "that R". -/
theorem questionCommand_topic (caseTable : Str → Str) (env : Env) (command p R : Str)
    (w : World)
    (hp : p ∈ questionPrefixes) (hp3 : p ≠ "what is that ".toList)
    (hl : ∀ c ∈ R, isLineTerminator c = false) (hR : trim R ≠ [])
    (hcmd : normalize caseTable command = p ++ R) :
    matchIntent (normalize caseTable command) = Intent.genericLookup (trim R) ∧
    processTextCommand caseTable env command w =
      fetchDuckDuckGoAnswer env (trim R) (addMessage command Sender.user w) := by
  have hR2 : R ≠ [] := by
    rintro rfl
    exact hR trim_nil
  have hdot := dotPlus_line R hR2 hl
  have hi : matchIntent (p ++ R) = Intent.genericLookup (trim R) := by
    simp only [questionPrefixes, List.map, List.mem_cons, List.mem_singleton, List.not_mem_nil,
      or_false] at hp
    rcases hp with h | h | h | h | h | h | h | h | h | h | h | h
    all_goals first
      | exact absurd h hp3
      | (subst h
         simp [matchIntent, firstMatch, patterns, questionPrefixes, startsWith, String.toList,
           List.isPrefixOf, matchTopic, hdot])
  rw [processTextCommand, hcmd, hi]
  exact ⟨rfl, rfl⟩

/-- Witness for C9: the command "Who is  Ada Lovelace" looks up "ada lovelace". -/
theorem questionCommand_topic_witness :
    normalize identityCaseTable "Who is  Ada Lovelace".toList = "who is ".toList ++ " ada lovelace".toList ∧
    matchIntent (normalize identityCaseTable "Who is  Ada Lovelace".toList) =
      Intent.genericLookup "ada lovelace".toList :=
  ⟨by decide, by
    have h := (questionCommand_topic identityCaseTable envDown "Who is  Ada Lovelace".toList "who is ".toList
      " ada lovelace".toList world0 (by decide) (by decide) (by decide) (by decide)
      (by decide)).1
    rw [h]; decide⟩

/-- Counterexample to C9 as stated: the normalized command "what is that thing" is the
prefix "what is that", a space and the remainder "thing", and the pattern for that prefix
alone would capture "thing"; the earlier pattern for "what is" matches first, so the generic
lookup is dispatched with topic "that thing", not "thing". -/
theorem whatIsThat_shadowed :
    normalize identityCaseTable "what is that thing".toList = "what is that ".toList ++ "thing".toList ∧
    matchIntent (normalize identityCaseTable "what is that thing".toList) =
      Intent.genericLookup "that thing".toList ∧
    matchIntent (normalize identityCaseTable "what is that thing".toList) ≠
      Intent.genericLookup (trim "thing".toList) ∧
    matchTopic "what is that ".toList (normalize identityCaseTable "what is that thing".toList) =
      some ["what is that thing".toList, "thing".toList] ∧
    firstMatch (normalize identityCaseTable "what is that thing".toList) =
      some ["what is that thing".toList, "that thing".toList] ∧
    (processTextCommand identityCaseTable envDown "what is that thing".toList world0).requests =
      [(Provider.A, "that thing".toList), (Provider.B, "that thing".toList)] := by
  decide


/-! ## Switching sessions -/

/-- What `loadChat` does to the store: the session switched to ends up holding each of its
messages twice, the copies stamped with the current time; every other session is unchanged. -/
theorem loadChat_replays (id : Str) (w : World) (log : List Message)
    (h : lookup id w.sessions = some log) :
    (loadChat id w).currentSessionId = id ∧
    lookup id (loadChat id w).sessions =
      some (log ++ log.map (fun m => ⟨m.sender, m.content, w.now⟩)) ∧
    (∀ other, other ≠ id → lookup other (loadChat id w).sessions = lookup other w.sessions) := by
  have hr := replay_sessions log { w with currentSessionId := id, chatOutput := [] }
  simp only at hr
  obtain ⟨h1, _, h3, h4⟩ := hr
  unfold loadChat
  simp only [h, Option.getD_some]
  exact ⟨h1, h3 log h, h4⟩

/-- Claim C10, evaluated where it fails: switching to the session "chat-0", which holds the
one message "hi", leaves two messages "hi" stored under "chat-0". -/
theorem loadChat_duplicates :
    lookup "chat-0".toList worldOneMessage.sessions = some [⟨Sender.user, "hi".toList, 3⟩] ∧
    lookup "chat-0".toList (loadChat "chat-0".toList worldOneMessage).sessions =
      some [⟨Sender.user, "hi".toList, 3⟩, ⟨Sender.user, "hi".toList, 7⟩] ∧
    (loadChat "chat-0".toList worldOneMessage).currentSessionId = "chat-0".toList := by
  decide

end Altaf
